import Mathlib

/-!
Verification of the form-validation / rate-limiting subsystem of the
`secondsightsolutions` static site (files
`assets/js/modules/lazy-loading.js` (form-validation half),
`assets/js/modules/utils.js`, and the configuration module).

The JavaScript is shallowly embedded: `localStorage` becomes an explicit
`Storage` record with failure flags, the DOM subtree of a form becomes a
flat list of nodes, timestamps are `Int` milliseconds, and each source
function becomes a Lean function over those states.
-/

namespace SSS

/-! ## Rate limiter (`rateLimit` in lazy-loading.js, lines 79-145)

`localStorage` is modelled as a record holding the parsed timestamp list
together with two flags: `readOk` (a `getItem`/`JSON.parse` that would
throw is `readOk = false`) and `writeOk` (`setItem` throwing is
`writeOk = false`).  Reads and writes are `Except Unit` so that the
source's try/catch structure is visible. -/

structure Storage where
  readOk : Bool
  writeOk : Bool
  data : List Int
  deriving Repr, DecidableEq

def storageGet (s : Storage) : Except Unit (List Int) :=
  if s.readOk then .ok s.data else .error ()

def storageSet (s : Storage) (d : List Int) : Except Unit Storage :=
  if s.writeOk then .ok { s with data := d } else .error ()

/-- `rateLimit.maxSubmissions` (source line 80). -/
def maxSubmissions : Nat := 3

/-- `rateLimit.windowMs = 10 * 60 * 1000` (source line 81). -/
def windowMs : Int := 10 * 60 * 1000

/-- The filter predicate `(time) => now - time < this.windowMs` used by
both `canSubmit` and `recordSubmission`. -/
def inWindow (now t : Int) : Bool := now - t < windowMs

/-- `rateLimit.canSubmit` (lines 88-101): read the stored list, count the
entries still inside the window, allow iff strictly fewer than
`maxSubmissions`; any read failure is caught and answered `true`.
The source contains no `setItem`, so the function is a pure read. -/
def canSubmit (s : Storage) (now : Int) : Bool :=
  match storageGet s with
  | .error _ => true
  | .ok subs => (subs.filter (inWindow now)).length < maxSubmissions

/-- `rateLimit.recordSubmission` (lines 106-125): read, append `now`,
filter to in-window entries, write back; the whole body is inside a
try/catch, so a read or write failure leaves the storage untouched. -/
def recordSubmission (s : Storage) (now : Int) : Storage :=
  match storageGet s with
  | .error _ => s
  | .ok subs =>
    let cleaned := (subs ++ [now]).filter (inWindow now)
    match storageSet s cleaned with
    | .error _ => s
    | .ok s2 => s2

/-- Minimum of a timestamp list, `Math.min(...submissions)` (line 138);
only ever used on a non-empty list. -/
def listMin : List Int → Int
  | [] => 0
  | t :: ts => ts.foldl min t

/-- Ceiling division `⌈a / b⌉` for a positive divisor, mirroring the
source's `Math.ceil(x / b)` on integer inputs. -/
def cdiv (a b : Int) : Int := (a + b - 1) / b

/-- `rateLimit.getRemainingTime` (lines 131-144): read failure or an
empty list give 0; otherwise
`Math.max(0, Math.ceil((windowMs - (now - oldest)) / 1000))`. -/
def getRemainingTime (s : Storage) (now : Int) : Int :=
  match storageGet s with
  | .error _ => 0
  | .ok subs =>
    if subs = [] then 0
    else max 0 (cdiv (windowMs - (now - listMin subs)) 1000)

/-! ## Validators (`utils.js`) and configuration (`config.js`)

Inputs that may be `null`/`undefined` are `Option String` (`none` for
both); a genuinely non-string argument behaves like `none` since the
source's `typeof` guard rejects it the same way. -/

/-- `config.validation.phoneMinLength` (config.js). -/
def phoneMinLength : Nat := 10

/-- `config.validation.phoneMaxLength` (config.js). -/
def phoneMaxLength : Nat := 20

/-- `config.validation.messages.required`. -/
def requiredMsg : String := "This field is required"

/-- `config.validation.messages.invalidEmail`. -/
def invalidEmailMsg : String := "Please enter a valid email address"

/-- `config.validation.messages.invalidPhone`. -/
def invalidPhoneMsg : String := "Please enter a valid phone number"

/-- Character class of the email local part,
`[a-zA-Z0-9.!#$%&'*+/=?^_`{|}~-]` in `config.validation.emailPattern`
(the apostrophe, backtick, braces and bar written via their code
points). -/
def localChar (c : Char) : Bool :=
  c.isAlphanum || c = '.' || c = '!' || c = '#' || c = '$' || c = '%' ||
  c = '&' || c = Char.ofNat 39 || c = '*' || c = '+' || c = '/' ||
  c = '=' || c = '?' || c = '^' || c = '_' || c = Char.ofNat 96 ||
  c = Char.ofNat 123 || c = Char.ofNat 124 || c = Char.ofNat 125 ||
  c = '~' || c = '-'

/-- One domain label of `emailPattern`:
`[a-zA-Z0-9](?:[a-zA-Z0-9-]{0,61}[a-zA-Z0-9])?` — 1 to 63 characters,
alphanumeric at both ends, alphanumeric or hyphen in between. -/
def labelOk (l : List Char) : Bool :=
  decide (1 ≤ l.length) && decide (l.length ≤ 63) &&
  (match l.head? with | some c => c.isAlphanum | none => false) &&
  (match l.getLast? with | some c => c.isAlphanum | none => false) &&
  ((l.drop 1).dropLast.all fun c => c.isAlphanum || c = '-')

/-- JavaScript `String.prototype.trim`: strip whitespace from both
ends (modelled on the character list). -/
def trimChars (l : List Char) : List Char :=
  ((l.dropWhile Char.isWhitespace).reverse.dropWhile Char.isWhitespace).reverse

/-- JavaScript `String.prototype.trim` as a string function. -/
def strTrim (s : String) : String := String.mk (trimChars s.toList)

/-- Split a character list at every occurrence of `sep` (the behaviour
of `String.prototype.split` with a one-character separator). -/
def splitOnChar (sep : Char) : List Char → List (List Char)
  | [] => [[]]
  | c :: r =>
    let rest := splitOnChar sep r
    if c = sep then [] :: rest
    else
      match rest with
      | h :: t => (c :: h) :: t
      | [] => [[c]]

/-- `config.validation.emailPattern` as a matcher: local part, `@`,
then dot-separated domain labels.  Neither the local class nor a label
may contain `@`, and labels may not contain `.`, so the regex match is
equivalent to this split-based check. -/
def emailMatch (l : List Char) : Bool :=
  match splitOnChar '@' l with
  | [loc, dom] =>
    (loc ≠ []) && loc.all localChar &&
    ((splitOnChar '.' dom).all labelOk)
  | _ => false

/-- `utils.isValidEmail` (utils.js lines 15-20): falsy or non-string
input fails, otherwise the pattern is tested against the trimmed
value. -/
def isValidEmail (e : Option String) : Bool :=
  match e with
  | none => false
  | some s => if s = "" then false else emailMatch (trimChars s.toList)

/-- Character class of `config.validation.phonePattern`
`^[\d\s\-\(\)\+]+$`: digits, whitespace, hyphen, parentheses, plus —
at any position. -/
def phoneChar (c : Char) : Bool :=
  c.isDigit || c.isWhitespace || c = '-' || c = '(' || c = ')' || c = '+'

/-- `utils.isValidPhone` (utils.js lines 27-35): falsy or non-string
input fails; otherwise the trimmed value must have length in
`[phoneMinLength, phoneMaxLength]` and match `phonePattern`. -/
def isValidPhone (p : Option String) : Bool :=
  match p with
  | none => false
  | some s =>
    if s = "" then false
    else
      let t := trimChars s.toList
      decide (phoneMinLength ≤ t.length) &&
      decide (t.length ≤ phoneMaxLength) &&
      (t ≠ []) && t.all phoneChar

/-- Serialization of one text character when a browser reads back
`innerHTML` from a div whose `textContent` was set (HTML standard text
fragment serialization): `&`, `<`, `>` and U+00A0 become entities,
every other character — quotes included — is unchanged. -/
def escapeChar (c : Char) : String :=
  if c = '&' then "&amp;"
  else if c = '<' then "&lt;"
  else if c = '>' then "&gt;"
  else if c = Char.ofNat 160 then "&nbsp;"
  else String.singleton c

/-- Concatenated per-character serialization of a text node. -/
def sanitizeChars : List Char → List Char
  | [] => []
  | c :: r => (escapeChar c).toList ++ sanitizeChars r

/-- `utils.sanitizeString` (utils.js lines 131-138): falsy or non-string
input gives `""`; otherwise the value is pushed through
`div.textContent = str; return div.innerHTML`, i.e. HTML text
serialization of the string. -/
def sanitizeString (v : Option String) : String :=
  match v with
  | none => ""
  | some s => if s = "" then "" else String.mk (sanitizeChars s.toList)

/-! ## DOM model for one form (`formValidation` in lazy-loading.js)

A form's subtree is flattened to a list of sibling nodes: input fields
(identified by a numeric id standing for element identity), message
annotation elements, the submit control, and inert other elements.
`_showError` inserts the annotation at `field.nextSibling` inside
`field.parentNode`, so within this flat model insertion is immediately
after the field, which is how the source behaves when fields are direct
children of the form. -/

inductive FieldType where
  | email
  | tel
  | other
  deriving Repr, DecidableEq

structure FieldData where
  id : Nat
  required : Bool
  ty : FieldType
  value : String
  errFlag : Bool
  deriving Repr, DecidableEq

/-- A message annotation element: its class list, `role`, `aria-live`
and text content. -/
structure Ann where
  classes : List String
  role : String
  live : String
  text : String
  deriving Repr, DecidableEq

inductive Node where
  | field : FieldData → Node
  | ann : Ann → Node
  | submit : Node
  | other : Node
  deriving Repr, DecidableEq

def Node.hasClass (n : Node) (c : String) : Bool :=
  match n with
  | .ann a => a.classes.contains c
  | _ => false

def isFieldId (fid : Nat) (n : Node) : Bool :=
  match n with
  | .field f => f.id = fid
  | _ => false

def isSubmit (n : Node) : Bool :=
  match n with
  | .submit => true
  | _ => false

def setErrFlag (b : Bool) (n : Node) : Node :=
  match n with
  | .field f => .field { f with errFlag := b }
  | x => x

/-- The annotation `_showError` creates: `className = 'error-message'`,
`role = alert`, `aria-live = polite`. -/
def mkFieldErr (msg : String) : Ann :=
  ⟨["error-message"], "alert", "polite", msg⟩

/-- The annotation `_showRateLimitError` creates:
`className = 'rate-limit-message error-message'`, `role = alert`,
`aria-live = assertive`. -/
def mkRateErr (msg : String) : Ann :=
  ⟨["rate-limit-message", "error-message"], "alert", "assertive", msg⟩

/-- Lines 182-183 of `_handleSubmit`: remove every `.error-message`
node, then every `.rate-limit-message` node. -/
def clearMessages (form : List Node) : List Node :=
  (form.filter fun n => !n.hasClass "error-message").filter
    fun n => !n.hasClass "rate-limit-message"

/-- `formValidation._clearFieldError` (lines 283-289): at the field,
remove the next element sibling when it carries the `error-message`
class, and drop the field's own `field-error` class. -/
def clearFieldError (fid : Nat) : List Node → List Node
  | [] => []
  | n :: rest =>
    if isFieldId fid n then
      setErrFlag false n ::
        (match rest with
         | m :: rest2 => if m.hasClass "error-message" then rest2 else m :: rest2
         | [] => [])
    else n :: clearFieldError fid rest

/-- Insertion step of `_showError`: mark the field with the
`field-error` class and place the new annotation at its
`nextSibling`. -/
def insertAfterField (fid : Nat) (e : Node) : List Node → List Node
  | [] => []
  | n :: rest =>
    if isFieldId fid n then setErrFlag true n :: e :: rest
    else n :: insertAfterField fid e rest

/-- `formValidation._showError` (lines 265-276): clear any existing
annotation for the field, then insert a fresh one after it. -/
def showError (fid : Nat) (msg : String) (form : List Node) : List Node :=
  insertAfterField fid (Node.ann (mkFieldErr msg)) (clearFieldError fid form)

/-- The check `_validateField` performs (lines 249-257): required-ness
first, then — only for `type === 'email'` with a non-empty value — the
email pattern.  `some msg` means `showError msg`, `none` means
`clearFieldError`. -/
def validateFieldAction (f : FieldData) : Option String :=
  if f.required && (trimChars f.value.toList == []) then some requiredMsg
  else if (f.ty == FieldType.email) && (f.value != "") &&
      !isValidEmail (some f.value) then some invalidEmailMsg
  else none

/-- `formValidation._validateField` acting on the form. -/
def validateField (fid : Nat) (form : List Node) : List Node :=
  match form.findSome? (fun n =>
      match n with
      | .field f => if f.id = fid then some f else none
      | _ => none) with
  | none => form
  | some f =>
    match validateFieldAction f with
    | some msg => showError fid msg form
    | none => clearFieldError fid form

/-- Per-field check of the submit path (lines 196-207): required-ness,
then the email pattern for `type === 'email'`, then the phone pattern
for `type === 'tel'`. -/
def submitFieldCheck (f : FieldData) : Option String :=
  if trimChars f.value.toList == [] then some requiredMsg
  else if (f.ty == FieldType.email) && !isValidEmail (some f.value) then
    some invalidEmailMsg
  else if (f.ty == FieldType.tel) && !isValidPhone (some f.value) then
    some invalidPhoneMsg
  else none

/-- `form.querySelectorAll('[required]')` in document order. -/
def requiredFields (form : List Node) : List FieldData :=
  form.filterMap fun n =>
    match n with
    | .field f => if f.required then some f else none
    | _ => none

/-- `firstError.previousElementSibling` for the first `.error-message`
node of the form (lines 213-216); `none` when there is no error node or
it has no preceding sibling. -/
def prevOfFirstError : List Node → Option Node
  | a :: b :: rest =>
    if a.hasClass "error-message" then none
    else if b.hasClass "error-message" then some a
    else prevOfFirstError (b :: rest)
  | _ => none

/-- `formValidation._showRateLimitError` (lines 229-242): insert the
rate-limit annotation before the first submit control, or prepend it to
the form when none exists. -/
def insertBeforeSubmit (e : Node) : List Node → List Node
  | [] => []
  | n :: rest => if isSubmit n then e :: n :: rest else n :: insertBeforeSubmit e rest

def showRateLimitError (form : List Node) (msg : String) : List Node :=
  let e := Node.ann (mkRateErr msg)
  if form.any isSubmit then insertBeforeSubmit e form
  else e :: form

/-- The blocked-submission message of lines 190-192. -/
def rateLimitText (minutes : Int) : String :=
  "Too many submissions. Please try again in " ++ toString minutes ++
    " minute" ++ (if minutes = 1 then "" else "s") ++ "."

/-- One iteration of the `requiredFields.forEach` loop of
`_handleSubmit`: a failing check shows the error after the field and
clears `isValid`; a passing one leaves the state alone. -/
def submitStep (acc : List Node × Bool) (f : FieldData) :
    List Node × Bool :=
  match submitFieldCheck f with
  | some msg => (showError f.id msg acc.1, false)
  | none => acc

structure SubmitOutcome where
  form : List Node
  storage : Storage
  prevented : Bool
  recorded : Bool
  focused : Option Node
  deriving Repr, DecidableEq

/-- `formValidation._handleSubmit` (lines 177-221). -/
def handleSubmit (form : List Node) (s : Storage) (now : Int) : SubmitOutcome :=
  let form1 := clearMessages form
  if !canSubmit s now then
    let minutes := cdiv (getRemainingTime s now) 60
    { form := showRateLimitError form1 (rateLimitText minutes)
      storage := s
      prevented := true
      recorded := false
      focused := none }
  else
    let res := (requiredFields form1).foldl submitStep (form1, true)
    if res.2 then
      { form := res.1
        storage := recordSubmission s now
        prevented := false
        recorded := true
        focused := none }
    else
      { form := res.1
        storage := s
        prevented := true
        recorded := false
        focused := prevOfFirstError res.1 }

/-- The error annotations attached to a field: the run of
`.error-message` elements immediately following it, stopped by the
first non-error sibling. -/
def annRun : List Node → List Ann
  | Node.ann a :: rest =>
    if a.classes.contains "error-message" then a :: annRun rest else []
  | _ => []

def annotationsFor (fid : Nat) : List Node → List Ann
  | [] => []
  | n :: rest => if isFieldId fid n then annRun rest else annotationsFor fid rest

/-- Ids of the field nodes of a form, in document order. -/
def fieldIds (form : List Node) : List Nat :=
  form.filterMap fun n =>
    match n with
    | .field f => some f.id
    | _ => none

/-! ## Helper lemmas -/

theorem recordSubmission_ok (d : List Int) (t : Int) :
    recordSubmission ⟨true, true, d⟩ t =
      ⟨true, true, (d ++ [t]).filter (inWindow t)⟩ := by
  simp [recordSubmission, storageGet, storageSet]

theorem cdiv_thousand_char (a : Int) :
    a ≤ 1000 * cdiv a 1000 ∧ 1000 * (cdiv a 1000 - 1) < a := by
  unfold cdiv
  have h1 := Int.ediv_add_emod (a + 1000 - 1) 1000
  have h2 := Int.emod_nonneg (a + 1000 - 1) (by norm_num : (1000 : Int) ≠ 0)
  have h3 := Int.emod_lt_of_pos (a + 1000 - 1) (by norm_num : (0 : Int) < 1000)
  omega

theorem listMin_le (l : List Int) (a : Int) :
    l.foldl min a ≤ a ∧ ∀ t ∈ l, l.foldl min a ≤ t := by
  induction l generalizing a with
  | nil => simp
  | cons b ts ih =>
    have h := ih (min a b)
    refine ⟨le_trans h.1 (min_le_left a b), ?_⟩
    intro t ht
    rcases List.mem_cons.mp ht with rfl | hmem
    · exact le_trans h.1 (min_le_right a t)
    · exact h.2 t hmem

theorem listMin_mem (l : List Int) (a : Int) :
    l.foldl min a = a ∨ l.foldl min a ∈ l := by
  induction l generalizing a with
  | nil => simp
  | cons b ts ih =>
    rcases ih (min a b) with h | h
    · rcases min_choice a b with hc | hc
      · left; simp only [List.foldl]; rw [h, hc]
      · right; simp only [List.foldl]; rw [h, hc]; exact List.mem_cons_self b ts
    · right; exact List.mem_cons_of_mem b h

/-! ## Claims -/

/-- C3: when the persistence read throws, `canSubmit` answers `true` and
`getRemainingTime` answers 0 whatever the store holds; and
`recordSubmission` swallows both read and write failures, leaving the
storage untouched (it is a total function, so it never propagates an
exception to its caller). -/
theorem rateLimit_failOpen (s : Storage) (now : Int) :
    (s.readOk = false →
      canSubmit s now = true ∧ getRemainingTime s now = 0 ∧
        recordSubmission s now = s) ∧
    (s.writeOk = false → recordSubmission s now = s) := by
  constructor
  · intro hr
    refine ⟨?_, ?_, ?_⟩ <;>
      simp [canSubmit, getRemainingTime, recordSubmission, storageGet, hr]
  · intro hw
    unfold recordSubmission storageGet storageSet
    cases hro : s.readOk <;> simp [hw]

/-- C3 witness: a storage whose reads and writes both fail, holding a
stale-looking entry. -/
theorem rateLimit_failOpen_witness :
    canSubmit ⟨false, false, [0]⟩ 5 = true ∧
      getRemainingTime ⟨false, false, [0]⟩ 5 = 0 ∧
      recordSubmission ⟨false, false, [0]⟩ 5 = ⟨false, false, [0]⟩ := by
  have h := (rateLimit_failOpen ⟨false, false, [0]⟩ 5).1 rfl
  exact ⟨h.1, h.2.1, h.2.2⟩

/-- C6: `getRemainingTime` returns 0 on read failure and on an empty
stored sequence; otherwise its value `r` is the ceiling in whole seconds
of `windowMs - (now - min(timestamps))` floored at 0, characterised by
`0 ≤ r`, `r = 0` when the window has already elapsed, and otherwise
`rem ≤ 1000·r < rem + 1000`; the minimum ranges over the whole stored
sequence, expired entries included. -/
theorem getRemainingTime_spec (s : Storage) (now : Int) :
    (s.readOk = false → getRemainingTime s now = 0) ∧
    (s.data = [] → getRemainingTime s now = 0) ∧
    (s.readOk = true → s.data ≠ [] →
      (listMin s.data ∈ s.data ∧ ∀ t ∈ s.data, listMin s.data ≤ t) ∧
      0 ≤ getRemainingTime s now ∧
      (windowMs - (now - listMin s.data) ≤ 0 → getRemainingTime s now = 0) ∧
      (0 < windowMs - (now - listMin s.data) →
        windowMs - (now - listMin s.data) ≤ 1000 * getRemainingTime s now ∧
        1000 * (getRemainingTime s now - 1) <
          windowMs - (now - listMin s.data))) := by
  refine ⟨?_, ?_, ?_⟩
  · intro hr; simp [getRemainingTime, storageGet, hr]
  · intro hd; unfold getRemainingTime storageGet; cases s.readOk <;> simp [hd]
  · intro hr hd
    obtain ⟨t, ts, hdata⟩ : ∃ t ts, s.data = t :: ts := by
      cases hcase : s.data with
      | nil => exact absurd hcase hd
      | cons t ts => exact ⟨t, ts, rfl⟩
    refine ⟨⟨?_, ?_⟩, ?_⟩
    · rw [hdata]; simp only [listMin]
      rcases listMin_mem ts t with h | h
      · rw [h]; exact List.mem_cons_self t ts
      · exact List.mem_cons_of_mem t h
    · intro x hx; rw [hdata] at hx ⊢; simp only [listMin]
      rcases List.mem_cons.mp hx with rfl | hmem
      · exact (listMin_le ts x).1
      · exact (listMin_le ts t).2 x hmem
    · have hval : getRemainingTime s now =
          max 0 (cdiv (windowMs - (now - listMin s.data)) 1000) := by
        simp [getRemainingTime, storageGet, hr, hd]
      set R := windowMs - (now - listMin s.data) with hR
      have hchar := cdiv_thousand_char R
      have hmax := max_choice 0 (cdiv R 1000)
      have h0 : (0 : Int) ≤ max 0 (cdiv R 1000) := le_max_left _ _
      have h1 : cdiv R 1000 ≤ max 0 (cdiv R 1000) := le_max_right _ _
      rw [hval]
      refine ⟨h0, ?_, ?_⟩ <;> intro hRsign <;> omega

/-- C6 witness: one submission at time 0, queried at time 1, leaves 600
whole seconds of the 600-second window. -/
theorem getRemainingTime_spec_witness :
    getRemainingTime ⟨true, true, [0]⟩ 1 = 600 := by
  have h := (getRemainingTime_spec ⟨true, true, [0]⟩ 1).2.2 rfl (by simp)
  have h2 := h.2.2.2 (by norm_num [windowMs, listMin])
  norm_num [windowMs, listMin] at h2
  omega

/-- C2: recording `maxSubmissions = 3` submissions at times within
`windowMs` of each other, starting from a fresh working storage, makes a
subsequent `canSubmit` return `false` while the earliest is still inside
the window, and `true` again once `windowMs` has elapsed since the
earliest. -/
theorem canSubmit_window (t1 t2 t3 now : Int)
    (h12 : t1 ≤ t2) (h23 : t2 ≤ t3) (hw : t3 - t1 < windowMs)
    (h3now : t3 ≤ now) :
    (now - t1 < windowMs →
      canSubmit (recordSubmission (recordSubmission
        (recordSubmission ⟨true, true, []⟩ t1) t2) t3) now = false) ∧
    (windowMs ≤ now - t1 →
      canSubmit (recordSubmission (recordSubmission
        (recordSubmission ⟨true, true, []⟩ t1) t2) t3) now = true) := by
  have e1 : recordSubmission ⟨true, true, []⟩ t1 = ⟨true, true, [t1]⟩ := by
    rw [recordSubmission_ok]
    have : List.filter (inWindow t1) ([] ++ [t1]) = [t1] :=
      List.filter_eq_self.mpr (by
        intro a ha
        simp only [List.nil_append, List.mem_singleton] at ha
        subst ha
        simp [inWindow, windowMs])
    rw [this]
  have e2 : recordSubmission ⟨true, true, [t1]⟩ t2 = ⟨true, true, [t1, t2]⟩ := by
    rw [recordSubmission_ok]
    have : List.filter (inWindow t2) ([t1] ++ [t2]) = [t1, t2] :=
      List.filter_eq_self.mpr (by
        intro a ha
        simp only [List.cons_append, List.nil_append, List.mem_cons,
          List.not_mem_nil, or_false] at ha
        rcases ha with rfl | rfl <;>
          · simp only [inWindow, decide_eq_true_eq, windowMs] at *
            omega)
    rw [this]
  have e3 : recordSubmission ⟨true, true, [t1, t2]⟩ t3 =
      ⟨true, true, [t1, t2, t3]⟩ := by
    rw [recordSubmission_ok]
    have : List.filter (inWindow t3) ([t1, t2] ++ [t3]) = [t1, t2, t3] :=
      List.filter_eq_self.mpr (by
        intro a ha
        simp only [List.cons_append, List.nil_append, List.mem_cons,
          List.not_mem_nil, or_false] at ha
        rcases ha with rfl | rfl | rfl <;>
          · simp only [inWindow, decide_eq_true_eq, windowMs] at *
            omega)
    rw [this]
  rw [e1, e2, e3]
  constructor
  · intro hnow
    have hfull : List.filter (inWindow now) [t1, t2, t3] = [t1, t2, t3] :=
      List.filter_eq_self.mpr (by
        intro a ha
        simp only [List.mem_cons, List.not_mem_nil, or_false] at ha
        rcases ha with rfl | rfl | rfl <;>
          · simp only [inWindow, decide_eq_true_eq, windowMs] at *
            omega)
    simp [canSubmit, storageGet, hfull, maxSubmissions]
  · intro hnow
    have h1 : inWindow now t1 = false := by
      simp only [inWindow, decide_eq_false_iff_not, not_lt, windowMs] at *
      omega
    have hlen := List.length_filter_le (inWindow now) [t2, t3]
    simp only [List.length_cons, List.length_nil] at hlen
    have hcs : canSubmit ⟨true, true, [t1, t2, t3]⟩ now =
        decide ((List.filter (inWindow now) [t1, t2, t3]).length <
          maxSubmissions) := by
      simp [canSubmit, storageGet]
    rw [hcs, List.filter_cons, h1]
    simp only [Bool.false_eq_true, if_false, maxSubmissions,
      decide_eq_true_eq]
    omega

/-- C2 witness: three submissions at time 0 block at time 0 and unblock
at time `windowMs`. -/
theorem canSubmit_window_witness :
    canSubmit (recordSubmission (recordSubmission
        (recordSubmission ⟨true, true, []⟩ 0) 0) 0) 0 = false ∧
    canSubmit (recordSubmission (recordSubmission
        (recordSubmission ⟨true, true, []⟩ 0) 0) 0) 600000 = true := by
  constructor
  · exact (canSubmit_window 0 0 0 0 le_rfl le_rfl
      (by norm_num [windowMs]) le_rfl).1 (by norm_num [windowMs])
  · exact (canSubmit_window 0 0 0 600000 le_rfl le_rfl
      (by norm_num [windowMs]) (by norm_num)).2 (by norm_num [windowMs])

/-- C5 counterexample: `canSubmit` contains no `setItem` — it is a pure
read, which is why its embedding returns only a `Bool` — so running it
leaves the persisted sequence untouched: with a stored timestamp 0 and
`now = windowMs` the call answers `true` yet the store still holds 0,
which is already outside the window (`now - 0 < windowMs` fails). -/
theorem canSubmit_does_not_prune :
    canSubmit ⟨true, true, [0]⟩ 600000 = true ∧
    (0 : Int) ∈ Storage.data ⟨true, true, [0]⟩ ∧
    ¬((600000 : Int) - 0 < windowMs) := by
  refine ⟨?_, by simp, by norm_num [windowMs]⟩
  simp [canSubmit, storageGet, inWindow, windowMs, maxSubmissions,
    List.filter]

/-- C5 amended: pruning happens on write — after `recordSubmission` with
working storage the persisted sequence contains only timestamps inside
the window relative to the time of the write; `canSubmit` filters only
its in-memory copy and leaves the persisted sequence unchanged. -/
theorem recordSubmission_prunes (s : Storage) (now : Int)
    (hr : s.readOk = true) (hw : s.writeOk = true) :
    ∀ t ∈ (recordSubmission s now).data, now - t < windowMs := by
  intro t ht
  obtain ⟨d, rfl⟩ : ∃ d, s = ⟨true, true, d⟩ := by
    cases s with
    | mk r w d => exact ⟨d, by simp_all⟩
  rw [recordSubmission_ok] at ht
  simp only [List.mem_filter] at ht
  simpa [inWindow] using ht.2

/-- C5 witness: recording into an empty working store at time 5 leaves
exactly the in-window stamp 5. -/
theorem recordSubmission_prunes_witness :
    (recordSubmission ⟨true, true, []⟩ 5).data = [5] ∧
      (5 : Int) - 5 < windowMs := by
  have hd : (recordSubmission ⟨true, true, []⟩ 5).data = [5] := by
    rw [recordSubmission_ok]
    simp [inWindow, windowMs]
  exact ⟨hd, recordSubmission_prunes ⟨true, true, []⟩ 5 rfl rfl 5
    (by rw [hd]; simp)⟩

/-- Per-character facts about `escapeChar`: neither angle bracket occurs
in any escape, and for each quote character the escape of `c` contains
that quote exactly as often as `[c]` does. -/
theorem escapeChar_chars (c : Char) :
    Char.ofNat 60 ∉ (escapeChar c).toList ∧
    Char.ofNat 62 ∉ (escapeChar c).toList ∧
    (escapeChar c).toList.count (Char.ofNat 34) = [c].count (Char.ofNat 34) ∧
    (escapeChar c).toList.count (Char.ofNat 39) = [c].count (Char.ofNat 39) := by
  by_cases h1 : c = '&'
  · subst h1; decide
  by_cases h2 : c = '<'
  · subst h2; decide
  by_cases h3 : c = '>'
  · subst h3; decide
  by_cases h4 : c = Char.ofNat 160
  · subst h4; decide
  have he : escapeChar c = String.singleton c := by
    simp [escapeChar, h1, h2, h3, h4]
  rw [he]
  have ht : (String.singleton c).toList = [c] := rfl
  rw [ht]
  refine ⟨?_, ?_, rfl, rfl⟩
  · intro hmem
    rw [List.mem_singleton] at hmem
    exact h2 (hmem.symm.trans (by decide))
  · intro hmem
    rw [List.mem_singleton] at hmem
    exact h3 (hmem.symm.trans (by decide))

theorem sanitizeChars_spec (l : List Char) :
    Char.ofNat 60 ∉ sanitizeChars l ∧
    Char.ofNat 62 ∉ sanitizeChars l ∧
    (sanitizeChars l).count (Char.ofNat 34) = l.count (Char.ofNat 34) ∧
    (sanitizeChars l).count (Char.ofNat 39) = l.count (Char.ofNat 39) := by
  induction l with
  | nil => simp [sanitizeChars]
  | cons c r ih =>
    have hc := escapeChar_chars c
    simp only [sanitizeChars, List.mem_append, not_or, List.count_append]
    refine ⟨⟨hc.1, ih.1⟩, ⟨hc.2.1, ih.2.1⟩, ?_, ?_⟩
    · rw [ih.2.2.1, hc.2.2.1]
      simp [List.count_cons, Nat.add_comm]
    · rw [ih.2.2.2, hc.2.2.2]
      simp [List.count_cons, Nat.add_comm]

/-- C9 counterexample: the double-quote character passes through
`sanitizeString` unchanged — the result is the raw one-character quote
string, not an entity escape (the browser's text-node serialization
behind `textContent`/`innerHTML` escapes only `&`, `<`, `>` and
U+00A0). -/
theorem sanitizeString_keeps_quote :
    sanitizeString (some "\"") = "\"" ∧
    (sanitizeString (some "\"")).toList = [Char.ofNat 34] ∧
    sanitizeString (some (String.singleton (Char.ofNat 39))) =
      String.singleton (Char.ofNat 39) := by
  refine ⟨rfl, by decide, rfl⟩

/-- C9 amended: `sanitizeString` maps null/undefined and `""` to `""`,
and otherwise entity-escapes `&`, `<`, `>` (and U+00A0) character by
character while leaving both quote characters unreplaced: no raw angle
bracket survives in the output, and the quote characters occur in the
output exactly as often as in the input. -/
theorem sanitizeString_spec (s : String) :
    sanitizeString none = "" ∧
    sanitizeString (some s) = String.mk (sanitizeChars s.toList) ∧
    escapeChar '&' = "&amp;" ∧
    escapeChar '<' = "&lt;" ∧
    escapeChar '>' = "&gt;" ∧
    (∀ c : Char, c ≠ '&' → c ≠ '<' → c ≠ '>' → c ≠ Char.ofNat 160 →
      escapeChar c = String.singleton c) ∧
    Char.ofNat 60 ∉ sanitizeChars s.toList ∧
    Char.ofNat 62 ∉ sanitizeChars s.toList ∧
    (sanitizeChars s.toList).count (Char.ofNat 34) =
      s.toList.count (Char.ofNat 34) ∧
    (sanitizeChars s.toList).count (Char.ofNat 39) =
      s.toList.count (Char.ofNat 39) := by
  have h := sanitizeChars_spec s.toList
  refine ⟨rfl, ?_, rfl, rfl, rfl, ?_, h.1, h.2.1, h.2.2.1, h.2.2.2⟩
  · by_cases hs : s = ""
    · subst hs; rfl
    · simp [sanitizeString, hs]
  · intro c h1 h2 h3 h4
    simp [escapeChar, h1, h2, h3, h4]

/-- C9 witness: the hypotheses of the singleton-escape clause discharged
at a concrete character. -/
theorem sanitizeString_spec_witness :
    sanitizeString (some "a<b") = "a&lt;b" ∧ escapeChar 'x' = "x" := by
  constructor
  · rfl
  · exact (sanitizeString_spec "").2.2.2.2.2.1 'x'
      (by decide) (by decide) (by decide) (by decide)

/-- C10 counterexample: `config.validation.phonePattern` is the bare
character class `^[\d\s\-\(\)\+]+$`, so a `+` is permitted at any
position, not only leading: a value with `+` in the middle and
in-range length is accepted. -/
theorem isValidPhone_plus_anywhere :
    isValidPhone (some "12345+67890") = true := by decide

/-- C10 amended: `isValidPhone` returns false exactly when the value is
null/undefined/non-string or empty, or the whitespace-trimmed value has
length outside `[phoneMinLength, phoneMaxLength]`, or the trimmed value
contains a character outside {digits, whitespace, hyphen, parentheses,
plus} — with the plus allowed at any position. -/
theorem isValidPhone_spec :
    isValidPhone none = false ∧
    isValidPhone (some "") = false ∧
    ∀ s : String, s ≠ "" →
      (isValidPhone (some s) = true ↔
        (phoneMinLength ≤ (trimChars s.toList).length ∧
          (trimChars s.toList).length ≤ phoneMaxLength ∧
          ∀ c ∈ trimChars s.toList, phoneChar c = true)) := by
  refine ⟨rfl, rfl, ?_⟩
  intro s hs
  simp only [isValidPhone, if_neg hs, Bool.and_eq_true, decide_eq_true_eq,
    List.all_eq_true, ne_eq]
  constructor
  · intro h
    tauto
  · rintro ⟨hmin, hmax, hall⟩
    have hne : ¬ trimChars s.toList = [] := by
      intro hnil
      rw [hnil] at hmin
      simp [phoneMinLength] at hmin
    tauto

/-- C10 witness: a plain ten-digit value is accepted, via the
characterisation. -/
theorem isValidPhone_spec_witness :
    isValidPhone (some "1234567890") = true := by
  exact (isValidPhone_spec.2.2 "1234567890" (by decide)).mpr (by decide)

/-- C8 counterexample: `_validateField` contains no phone check — a
required `tel` field whose non-empty value fails `isValidPhone` is
nevertheless cleared on blur (`validateFieldAction` yields `none`, so
the DOM action is `clearFieldError`, not `showError` with the
invalid-phone message the claim requires). -/
theorem validateField_no_phone_check :
    validateFieldAction ⟨0, true, FieldType.tel, "abc", false⟩ = none ∧
    isValidPhone (some "abc") = false ∧
    validateField 0 [Node.field ⟨0, true, FieldType.tel, "abc", false⟩] =
      [Node.field ⟨0, true, FieldType.tel, "abc", false⟩] := by
  refine ⟨rfl, by decide, rfl⟩

/-- C8 amended: on blur, `_validateField` checks required-ness first and
then the type-specific pattern for email only (`tel` fields get no
pattern check on blur); the first failing check's message is shown,
otherwise the field error is cleared — in particular an empty required
email field always reports the required message, never invalid
email. -/
theorem validateField_order (f : FieldData) :
    (f.required = true → trimChars f.value.toList = [] →
      validateFieldAction f = some requiredMsg) ∧
    (¬(f.required = true ∧ trimChars f.value.toList = []) →
      f.ty = FieldType.email → f.value ≠ "" →
      isValidEmail (some f.value) = false →
      validateFieldAction f = some invalidEmailMsg) ∧
    (¬(f.required = true ∧ trimChars f.value.toList = []) →
      (f.ty ≠ FieldType.email ∨ f.value = "" ∨
        isValidEmail (some f.value) = true) →
      validateFieldAction f = none) := by
  have hb : (f.required && (trimChars f.value.toList == [])) = true ↔
      (f.required = true ∧ trimChars f.value.toList = []) := by
    simp [Bool.and_eq_true]
  have hb2 : ((f.ty == FieldType.email) && (f.value != "") &&
      !isValidEmail (some f.value)) = true ↔
      (f.ty = FieldType.email ∧ f.value ≠ "" ∧
        isValidEmail (some f.value) = false) := by
    simp [Bool.and_eq_true, bne_iff_ne, and_assoc]
  refine ⟨?_, ?_, ?_⟩
  · intro hreq hval
    unfold validateFieldAction
    rw [if_pos (hb.mpr ⟨hreq, hval⟩)]
  · intro hn hty hval hbad
    unfold validateFieldAction
    rw [if_neg (fun hcontra => hn (hb.mp hcontra)),
      if_pos (hb2.mpr ⟨hty, hval, hbad⟩)]
  · intro hn hcs
    unfold validateFieldAction
    rw [if_neg (fun hcontra => hn (hb.mp hcontra)), if_neg]
    intro hcontra
    obtain ⟨hty2, hval2, hbad2⟩ := hb2.mp hcontra
    rcases hcs with hty | hval | hgood
    · exact hty hty2
    · exact hval2 hval
    · rw [hgood] at hbad2; exact Bool.noConfusion hbad2

/-- C8 witness: an empty required email field reports the required
message. -/
theorem validateField_order_witness :
    validateFieldAction ⟨0, true, FieldType.email, "", false⟩ =
      some requiredMsg :=
  (validateField_order _).1 rfl rfl

/-! ## Field Error Presenter lemmas -/

theorem isFieldId_setErrFlag (fid : Nat) (b : Bool) (n : Node) :
    isFieldId fid (setErrFlag b n) = isFieldId fid n := by
  cases n <;> rfl

theorem annRun_not_err (m : Node) (x : List Node)
    (hm : m.hasClass "error-message" = false) : annRun (m :: x) = [] := by
  cases m with
  | ann a =>
    simp only [Node.hasClass] at hm
    simp only [annRun, hm, Bool.false_eq_true, if_false]
  | field f => rfl
  | submit => rfl
  | other => rfl

theorem hasClass_ann (m : Node) (c : String)
    (hm : m.hasClass c = true) : ∃ a : Ann, m = Node.ann a := by
  cases m with
  | ann a => exact ⟨a, rfl⟩
  | field f => exact absurd hm (by simp [Node.hasClass])
  | submit => exact absurd hm (by simp [Node.hasClass])
  | other => exact absurd hm (by simp [Node.hasClass])

theorem isFieldId_field (fid : Nat) (n : Node)
    (h : isFieldId fid n = true) :
    ∃ f : FieldData, n = Node.field f ∧ f.id = fid := by
  cases n with
  | field f =>
    refine ⟨f, rfl, ?_⟩
    simpa [isFieldId] using h
  | ann a => exact absurd h (by simp [isFieldId])
  | submit => exact absurd h (by simp [isFieldId])
  | other => exact absurd h (by simp [isFieldId])

theorem fieldIds_clearFieldError (fid : Nat) (l : List Node) :
    fieldIds (clearFieldError fid l) = fieldIds l := by
  induction l with
  | nil => rfl
  | cons n rest ih =>
    by_cases h : isFieldId fid n = true
    · obtain ⟨f, rfl, hfid⟩ := isFieldId_field fid n h
      cases rest with
      | nil => simp [clearFieldError, h, fieldIds, List.filterMap_cons,
          setErrFlag]
      | cons m rest2 =>
        by_cases hm : m.hasClass "error-message" = true
        · obtain ⟨a, rfl⟩ := hasClass_ann m _ hm
          simp [clearFieldError, h, hm, fieldIds, List.filterMap_cons,
            setErrFlag]
        · have hm2 : m.hasClass "error-message" = false := by simpa using hm
          cases m <;>
            simp [clearFieldError, h, hm2, fieldIds, List.filterMap_cons,
              setErrFlag]
    · have h2 : isFieldId fid n = false := by simpa using h
      cases n <;>
        · simp [clearFieldError, h2, fieldIds, List.filterMap_cons]
          exact ih

theorem fieldIds_insertAfterField (fid : Nat) (a : Ann) (l : List Node) :
    fieldIds (insertAfterField fid (Node.ann a) l) = fieldIds l := by
  induction l with
  | nil => rfl
  | cons n rest ih =>
    by_cases h : isFieldId fid n = true
    · obtain ⟨f, rfl, hfid⟩ := isFieldId_field fid n h
      simp [insertAfterField, h, fieldIds, List.filterMap_cons, setErrFlag]
    · have h2 : isFieldId fid n = false := by simpa using h
      cases n <;>
        · simp [insertAfterField, h2, fieldIds, List.filterMap_cons]
          exact ih

theorem fieldIds_showError (fid : Nat) (msg : String) (l : List Node) :
    fieldIds (showError fid msg l) = fieldIds l := by
  unfold showError
  rw [fieldIds_insertAfterField, fieldIds_clearFieldError]

theorem annRun_mkFieldErr (msg : String) (x : List Node) :
    annRun (Node.ann (mkFieldErr msg) :: x) = mkFieldErr msg :: annRun x :=
  rfl

theorem annotationsFor_showError_self (fid : Nat) (msg : String)
    (l : List Node) (hmem : fid ∈ fieldIds l)
    (hinv : (annotationsFor fid l).length ≤ 1) :
    annotationsFor fid (showError fid msg l) = [mkFieldErr msg] := by
  induction l with
  | nil => simp [fieldIds] at hmem
  | cons n rest ih =>
    by_cases h : isFieldId fid n = true
    · obtain ⟨f, rfl, hfid⟩ := isFieldId_field fid n h
      have hinv2 : (annRun rest).length ≤ 1 := by
        simpa [annotationsFor, h] using hinv
      cases rest with
      | nil =>
        simp [showError, clearFieldError, insertAfterField, h, setErrFlag,
          isFieldId, hfid, annotationsFor, annRun, mkFieldErr]
      | cons m rest2 =>
        by_cases hm : m.hasClass "error-message" = true
        · obtain ⟨a, rfl⟩ := hasClass_ann m _ hm
          have hrun : annRun rest2 = [] := by
            simp only [Node.hasClass] at hm
            simp only [annRun, hm, if_true, List.length_cons] at hinv2
            have : (annRun rest2).length = 0 := by omega
            exact List.length_eq_zero.mp this
          have hclear : clearFieldError fid
              (Node.field f :: Node.ann a :: rest2) =
              setErrFlag false (Node.field f) :: rest2 := by
            simp [clearFieldError, h, hm]
          unfold showError
          rw [hclear]
          simp [insertAfterField, setErrFlag, isFieldId, hfid,
            annotationsFor, annRun_mkFieldErr, hrun]
        · have hm2 : m.hasClass "error-message" = false := by simpa using hm
          have hrun : annRun (m :: rest2) = [] := annRun_not_err m rest2 hm2
          have hclear : clearFieldError fid (Node.field f :: m :: rest2) =
              setErrFlag false (Node.field f) :: m :: rest2 := by
            simp [clearFieldError, h, hm2]
          unfold showError
          rw [hclear]
          simp [insertAfterField, setErrFlag, isFieldId, hfid,
            annotationsFor, annRun_mkFieldErr, hrun]
    · have h2 : isFieldId fid n = false := by simpa using h
      have hmem2 : fid ∈ fieldIds rest := by
        cases n with
        | field f =>
          have hne : ¬ f.id = fid := by simpa [isFieldId] using h2
          simp only [fieldIds, List.filterMap_cons] at hmem
          rcases List.mem_cons.mp hmem with heq | hmem2
          · exact absurd heq.symm hne
          · exact hmem2
        | ann a => simpa [fieldIds, List.filterMap_cons] using hmem
        | submit => simpa [fieldIds, List.filterMap_cons] using hmem
        | other => simpa [fieldIds, List.filterMap_cons] using hmem
      have hinv2 : (annotationsFor fid rest).length ≤ 1 := by
        simpa [annotationsFor, h2] using hinv
      have hstep : showError fid msg (n :: rest) =
          n :: showError fid msg rest := by
        simp [showError, clearFieldError, insertAfterField, h2]
      rw [hstep]
      simp only [annotationsFor, h2, Bool.false_eq_true, if_false]
      exact ih hmem2 hinv2

/-- A sequence of `showError` calls on one field, in order. -/
def applyShowErrors (fid : Nat) (msgs : List String)
    (form : List Node) : List Node :=
  msgs.foldl (fun fm m => showError fid m fm) form

/-- C7: for every sequence of `showError` calls on the same field of a
form that starts with at most one annotation on that field, after each
call (i.e. after any non-empty prefix `msgs ++ [m]` of the sequence)
the field carries exactly one error annotation, and it holds the most
recently supplied message; in particular at no point does the field
have more than one annotation. -/
theorem showError_at_most_one (form : List Node) (fid : Nat)
    (msgs : List String) (m : String)
    (hmem : fid ∈ fieldIds form)
    (hinv : (annotationsFor fid form).length ≤ 1) :
    annotationsFor fid (applyShowErrors fid (msgs ++ [m]) form) =
      [mkFieldErr m] := by
  induction msgs generalizing form with
  | nil =>
    simp only [applyShowErrors, List.nil_append, List.foldl_cons,
      List.foldl_nil]
    exact annotationsFor_showError_self fid m form hmem hinv
  | cons m0 rest ih =>
    simp only [applyShowErrors, List.cons_append, List.foldl_cons]
    have h1 := annotationsFor_showError_self fid m0 form hmem hinv
    exact ih (showError fid m0 form)
      (by rw [fieldIds_showError]; exact hmem)
      (by rw [h1]; simp)

/-- C7 witness: two successive messages on one field leave exactly the
second one. -/
theorem showError_at_most_one_witness :
    annotationsFor 0 (applyShowErrors 0 (["first"] ++ ["second"])
      [Node.field ⟨0, true, FieldType.other, "", false⟩]) =
      [mkFieldErr "second"] := by
  exact showError_at_most_one
    [Node.field ⟨0, true, FieldType.other, "", false⟩] 0 ["first"] "second"
    (by decide) (by decide)

/-! ## Rate-limit branch lemmas -/

theorem clearMessages_spec (form : List Node) :
    ∀ n ∈ clearMessages form,
      n.hasClass "error-message" = false ∧
      n.hasClass "rate-limit-message" = false := by
  intro n hn
  unfold clearMessages at hn
  rw [List.mem_filter] at hn
  obtain ⟨hn1, hq⟩ := hn
  rw [List.mem_filter] at hn1
  obtain ⟨_, hp⟩ := hn1
  constructor
  · simpa using hp
  · simpa using hq

theorem mem_insertBeforeSubmit (e n : Node) (l : List Node)
    (hn : n ∈ insertBeforeSubmit e l) : n = e ∨ n ∈ l := by
  induction l with
  | nil => simp [insertBeforeSubmit] at hn
  | cons x rest ih =>
    by_cases hx : isSubmit x = true
    · simp only [insertBeforeSubmit, hx, if_true] at hn
      rcases List.mem_cons.mp hn with rfl | hn2
      · exact Or.inl rfl
      · exact Or.inr hn2
    · have hx2 : isSubmit x = false := by simpa using hx
      simp only [insertBeforeSubmit, hx2, Bool.false_eq_true, if_false] at hn
      rcases List.mem_cons.mp hn with rfl | hn2
      · exact Or.inr (List.mem_cons_self _ _)
      · rcases ih hn2 with h | h
        · exact Or.inl h
        · exact Or.inr (List.mem_cons_of_mem _ h)

theorem mem_showRateLimitError (n : Node) (l : List Node) (msg : String)
    (hn : n ∈ showRateLimitError l msg) :
    n = Node.ann (mkRateErr msg) ∨ n ∈ l := by
  unfold showRateLimitError at hn
  by_cases hs : l.any isSubmit = true
  · rw [if_pos hs] at hn
    exact mem_insertBeforeSubmit _ n l hn
  · rw [if_neg hs] at hn
    exact List.mem_cons.mp hn

theorem insertBeforeSubmit_at (e : Node) (p q : List Node)
    (hp : ∀ x ∈ p, isSubmit x = false) :
    insertBeforeSubmit e (p ++ Node.submit :: q) =
      p ++ e :: Node.submit :: q := by
  induction p with
  | nil => simp [insertBeforeSubmit, isSubmit]
  | cons x rest ih =>
    have hx := hp x (List.mem_cons_self _ _)
    simp only [List.cons_append, insertBeforeSubmit, hx, Bool.false_eq_true,
      if_false]
    exact congrArg (fun t => x :: t) (ih (fun y hy => hp y (List.mem_cons_of_mem _ hy)))

theorem filter_rate_insertBeforeSubmit (msg : String) (l : List Node)
    (hs : l.any isSubmit = true)
    (hl : ∀ n ∈ l, n.hasClass "rate-limit-message" = false) :
    (insertBeforeSubmit (Node.ann (mkRateErr msg)) l).filter
      (fun n => n.hasClass "rate-limit-message") =
      [Node.ann (mkRateErr msg)] := by
  induction l with
  | nil => simp at hs
  | cons x rest ih =>
    by_cases hx : isSubmit x = true
    · simp only [insertBeforeSubmit, hx, if_true]
      rw [List.filter_cons_of_pos (by rfl)]
      have h0 : (x :: rest).filter
          (fun n => n.hasClass "rate-limit-message") = [] := by
        rw [List.filter_eq_nil_iff]
        intro n hn
        simp [hl n hn]
      rw [h0]
    · have hx2 : isSubmit x = false := by simpa using hx
      simp only [insertBeforeSubmit, hx2, Bool.false_eq_true, if_false]
      have hsrest : rest.any isSubmit = true := by
        simp only [List.any_cons, hx2, Bool.false_or] at hs
        exact hs
      rw [List.filter_cons_of_neg (by simp [hl x (List.mem_cons_self _ _)])]
      exact ih hsrest (fun n hn => hl n (List.mem_cons_of_mem _ hn))

theorem showRateLimitError_unique (l : List Node) (msg : String)
    (hl : ∀ n ∈ l, n.hasClass "rate-limit-message" = false) :
    (showRateLimitError l msg).filter
      (fun n => n.hasClass "rate-limit-message") =
      [Node.ann (mkRateErr msg)] := by
  unfold showRateLimitError
  by_cases hs : l.any isSubmit = true
  · rw [if_pos hs]
    exact filter_rate_insertBeforeSubmit msg l hs hl
  · rw [if_neg hs]
    rw [List.filter_cons_of_pos (by rfl)]
    have h0 : l.filter (fun n => n.hasClass "rate-limit-message") = [] := by
      rw [List.filter_eq_nil_iff]
      intro n hn
      simp [hl n hn]
    rw [h0]

/-- C4: on a submit where `canSubmit` is false, native submission is
prevented, `getRemainingTime` is consulted, no per-field validation runs
(no submission is recorded, the storage is untouched, and the only
`error-message`-classed node of the resulting form is the rate-limit
annotation itself), and exactly one rate-limit annotation — carrying the
`rate-limit-message` class that field errors lack, `role="alert"` and
`aria-live="assertive"` — is inserted immediately before the submit
control when one exists and prepended to the form otherwise; moreover
every submit attempt first removes all existing field-error and
rate-limit annotations (the branch works on `clearMessages form`, which
contains neither). -/
theorem handleSubmit_rateLimited (form : List Node) (s : Storage)
    (now : Int) :
    (canSubmit s now = false →
      (handleSubmit form s now).prevented = true ∧
      (handleSubmit form s now).recorded = false ∧
      (handleSubmit form s now).storage = s ∧
      (handleSubmit form s now).form =
        showRateLimitError (clearMessages form)
          (rateLimitText (cdiv (getRemainingTime s now) 60)) ∧
      (mkRateErr (rateLimitText (cdiv (getRemainingTime s now) 60))).role =
        "alert" ∧
      (mkRateErr (rateLimitText (cdiv (getRemainingTime s now) 60))).live =
        "assertive" ∧
      "rate-limit-message" ∈
        (mkRateErr (rateLimitText (cdiv (getRemainingTime s now) 60))).classes ∧
      (∀ m : String, "rate-limit-message" ∉ (mkFieldErr m).classes) ∧
      ((clearMessages form).any isSubmit = false →
        (handleSubmit form s now).form =
          Node.ann (mkRateErr (rateLimitText
            (cdiv (getRemainingTime s now) 60))) :: clearMessages form) ∧
      (∀ p q : List Node, clearMessages form = p ++ Node.submit :: q →
        (∀ x ∈ p, isSubmit x = false) →
        (handleSubmit form s now).form =
          p ++ Node.ann (mkRateErr (rateLimitText
            (cdiv (getRemainingTime s now) 60))) :: Node.submit :: q) ∧
      (∀ n ∈ (handleSubmit form s now).form,
        n.hasClass "error-message" = true →
        n = Node.ann (mkRateErr (rateLimitText
          (cdiv (getRemainingTime s now) 60)))) ∧
      (handleSubmit form s now).form.filter
          (fun n => n.hasClass "rate-limit-message") =
        [Node.ann (mkRateErr (rateLimitText
          (cdiv (getRemainingTime s now) 60)))]) ∧
    (∀ n ∈ clearMessages form,
      n.hasClass "error-message" = false ∧
      n.hasClass "rate-limit-message" = false) := by
  refine ⟨?_, clearMessages_spec form⟩
  intro hcs
  have hform : handleSubmit form s now =
      { form := showRateLimitError (clearMessages form)
          (rateLimitText (cdiv (getRemainingTime s now) 60))
        storage := s
        prevented := true
        recorded := false
        focused := none } := by
    simp [handleSubmit, hcs]
  rw [hform]
  refine ⟨rfl, rfl, rfl, rfl, rfl, rfl, by simp [mkRateErr], ?_, ?_, ?_, ?_, ?_⟩
  · intro m
    simp [mkFieldErr]
  · intro hno
    simp only [showRateLimitError, hno, Bool.false_eq_true, if_false]
  · intro p q hsplit hp
    have hs : (clearMessages form).any isSubmit = true := by
      rw [hsplit]
      simp [List.any_append, isSubmit]
    simp only [showRateLimitError, hs, if_true]
    rw [hsplit]
    exact insertBeforeSubmit_at _ p q hp
  · intro n hn hcls
    rcases mem_showRateLimitError n _ _ hn with h | h
    · exact h
    · exact absurd hcls (by simp [(clearMessages_spec form n h).1])
  · exact showRateLimitError_unique _ _
      (fun n hn => (clearMessages_spec form n hn).2)

/-- C4 witness: a rate-limited submit on a form holding only its submit
control, with three fresh submissions stored. -/
theorem handleSubmit_rateLimited_witness :
    (handleSubmit [Node.submit] ⟨true, true, [0, 0, 0]⟩ 0).prevented =
      true ∧
    (handleSubmit [Node.submit] ⟨true, true, [0, 0, 0]⟩ 0).form =
      [Node.ann (mkRateErr (rateLimitText
        (cdiv (getRemainingTime ⟨true, true, [0, 0, 0]⟩ 0) 60))),
       Node.submit] := by
  have h := (handleSubmit_rateLimited [Node.submit]
    ⟨true, true, [0, 0, 0]⟩ 0).1 (by decide)
  refine ⟨h.1, ?_⟩
  have h2 := h.2.2.2.2.2.2.2.2.2.1 [] [] rfl (by simp)
  simpa using h2

/-- A `showError` on any field does not change the leading run of error
annotations of the node list: the field node ends that run before any
modification point. -/
theorem annRun_showError (a : Nat) (msg : String) (l : List Node) :
    annRun (showError a msg l) = annRun l := by
  induction l with
  | nil => rfl
  | cons n rest ih =>
    by_cases h : isFieldId a n = true
    · obtain ⟨f, rfl, hfid⟩ := isFieldId_field a n h
      cases rest with
      | nil =>
        have hclear : clearFieldError a [Node.field f] =
            [setErrFlag false (Node.field f)] := by
          simp [clearFieldError, h]
        unfold showError
        rw [hclear]
        simp [insertAfterField, setErrFlag, isFieldId, hfid, annRun]
      | cons m rest2 =>
        by_cases hm : m.hasClass "error-message" = true
        · have hclear : clearFieldError a (Node.field f :: m :: rest2) =
              setErrFlag false (Node.field f) :: rest2 := by
            simp [clearFieldError, h, hm]
          unfold showError
          rw [hclear]
          simp [insertAfterField, setErrFlag, isFieldId, hfid, annRun]
        · have hm2 : m.hasClass "error-message" = false := by simpa using hm
          have hclear : clearFieldError a (Node.field f :: m :: rest2) =
              setErrFlag false (Node.field f) :: m :: rest2 := by
            simp [clearFieldError, h, hm2]
          unfold showError
          rw [hclear]
          simp [insertAfterField, setErrFlag, isFieldId, hfid, annRun]
    · have h2 : isFieldId a n = false := by simpa using h
      have hstep : showError a msg (n :: rest) = n :: showError a msg rest := by
        simp [showError, clearFieldError, insertAfterField, h2]
      rw [hstep]
      cases n with
      | ann a0 => simp [annRun, ih]
      | field f => rfl
      | submit => rfl
      | other => rfl

/-- A `showError` on field `a` leaves the annotations of any other
field `b` untouched. -/
theorem annotationsFor_showError_other (a b : Nat) (msg : String)
    (l : List Node) (hab : a ≠ b) :
    annotationsFor b (showError a msg l) = annotationsFor b l := by
  induction l with
  | nil => rfl
  | cons n rest ih =>
    by_cases h : isFieldId a n = true
    · obtain ⟨f, rfl, hfid⟩ := isFieldId_field a n h
      cases rest with
      | nil =>
        have hclear : clearFieldError a [Node.field f] =
            [setErrFlag false (Node.field f)] := by
          simp [clearFieldError, h]
        unfold showError
        rw [hclear]
        simp [insertAfterField, setErrFlag, isFieldId, hfid, hab,
          annotationsFor]
      | cons m rest2 =>
        by_cases hm : m.hasClass "error-message" = true
        · obtain ⟨a0, rfl⟩ := hasClass_ann m _ hm
          have hclear : clearFieldError a
              (Node.field f :: Node.ann a0 :: rest2) =
              setErrFlag false (Node.field f) :: rest2 := by
            simp [clearFieldError, h, hm]
          unfold showError
          rw [hclear]
          simp [insertAfterField, setErrFlag, isFieldId, hfid, hab,
            annotationsFor]
        · have hm2 : m.hasClass "error-message" = false := by simpa using hm
          have hclear : clearFieldError a (Node.field f :: m :: rest2) =
              setErrFlag false (Node.field f) :: m :: rest2 := by
            simp [clearFieldError, h, hm2]
          unfold showError
          rw [hclear]
          by_cases hbm : isFieldId b m = true
          · simp [insertAfterField, setErrFlag, isFieldId, hfid, hab,
              annotationsFor, hbm]
          · have hbm2 : isFieldId b m = false := by simpa using hbm
            simp [insertAfterField, setErrFlag, isFieldId, hfid, hab,
              annotationsFor, hbm2]
    · have h2 : isFieldId a n = false := by simpa using h
      have hstep : showError a msg (n :: rest) = n :: showError a msg rest := by
        simp [showError, clearFieldError, insertAfterField, h2]
      rw [hstep]
      by_cases hbn : isFieldId b n = true
      · simp [annotationsFor, hbn, annRun_showError]
      · have hbn2 : isFieldId b n = false := by simpa using hbn
        simp [annotationsFor, hbn2, ih]

theorem requiredFields_id_mem (l : List Node) :
    ∀ f ∈ requiredFields l, f.id ∈ fieldIds l := by
  induction l with
  | nil => simp [requiredFields]
  | cons n rest ih =>
    intro f hf
    cases n with
    | field f0 =>
      by_cases hr : f0.required = true
      · simp only [requiredFields, List.filterMap_cons, hr, if_true] at hf
        simp only [fieldIds, List.filterMap_cons]
        rcases List.mem_cons.mp hf with rfl | hf2
        · exact List.mem_cons_self _ _
        · exact List.mem_cons_of_mem _ (ih f hf2)
      · have hr2 : f0.required = false := by simpa using hr
        simp only [requiredFields, List.filterMap_cons, hr2,
          Bool.false_eq_true, if_false] at hf
        simp only [fieldIds, List.filterMap_cons]
        exact List.mem_cons_of_mem _ (ih f hf)
    | ann a =>
      simp only [requiredFields, List.filterMap_cons] at hf
      simpa [fieldIds, List.filterMap_cons] using ih f hf
    | submit =>
      simp only [requiredFields, List.filterMap_cons] at hf
      simpa [fieldIds, List.filterMap_cons] using ih f hf
    | other =>
      simp only [requiredFields, List.filterMap_cons] at hf
      simpa [fieldIds, List.filterMap_cons] using ih f hf

theorem annotationsFor_no_err (fid : Nat) (l : List Node)
    (hl : ∀ n ∈ l, n.hasClass "error-message" = false) :
    annotationsFor fid l = [] := by
  induction l with
  | nil => rfl
  | cons n rest ih =>
    by_cases h : isFieldId fid n = true
    · have hrun : annRun rest = [] := by
        cases rest with
        | nil => rfl
        | cons m r2 =>
          exact annRun_not_err m r2
            (hl m (List.mem_cons_of_mem _ (List.mem_cons_self _ _)))
      simp [annotationsFor, h, hrun]
    · have h2 : isFieldId fid n = false := by simpa using h
      simp [annotationsFor, h2,
        ih (fun m hm => hl m (List.mem_cons_of_mem _ hm))]

theorem requiredFields_map_sublist (l : List Node) :
    ((requiredFields l).map FieldData.id).Sublist (fieldIds l) := by
  induction l with
  | nil => simp [requiredFields, fieldIds]
  | cons n rest ih =>
    cases n with
    | field f0 =>
      by_cases hr : f0.required = true
      · simp only [requiredFields, fieldIds, List.filterMap_cons, hr,
          if_true, List.map_cons]
        exact List.Sublist.cons₂ _ ih
      · have hr2 : f0.required = false := by simpa using hr
        simp only [requiredFields, fieldIds, List.filterMap_cons, hr2,
          Bool.false_eq_true, if_false]
        exact List.Sublist.cons _ ih
    | ann a => simpa [requiredFields, fieldIds, List.filterMap_cons] using ih
    | submit => simpa [requiredFields, fieldIds, List.filterMap_cons] using ih
    | other => simpa [requiredFields, fieldIds, List.filterMap_cons] using ih

/-- Invariant of the `requiredFields.forEach` fold of `_handleSubmit`:
the field set is preserved, the `isValid` flag is true iff it started
true and every field passed, a fully passing run leaves the form
untouched, untouched fields keep their annotations, and (for distinct
field ids) every failing field ends up with exactly its own message. -/
theorem submitFold_spec (fields : List FieldData) (fm : List Node)
    (ok : Bool)
    (hids : ∀ f ∈ fields, f.id ∈ fieldIds fm)
    (hinv : ∀ f ∈ fields, (annotationsFor f.id fm).length ≤ 1) :
    fieldIds (fields.foldl submitStep (fm, ok)).1 = fieldIds fm ∧
    ((fields.foldl submitStep (fm, ok)).2 = true ↔
      (ok = true ∧ ∀ f ∈ fields, submitFieldCheck f = none)) ∧
    ((∀ f ∈ fields, submitFieldCheck f = none) →
      (fields.foldl submitStep (fm, ok)).1 = fm) ∧
    (∀ fid2 : Nat, (∀ f ∈ fields, f.id ≠ fid2) →
      annotationsFor fid2 (fields.foldl submitStep (fm, ok)).1 =
        annotationsFor fid2 fm) ∧
    ((fields.map FieldData.id).Nodup →
      ∀ f ∈ fields, ∀ msg, submitFieldCheck f = some msg →
        annotationsFor f.id (fields.foldl submitStep (fm, ok)).1 =
          [mkFieldErr msg]) := by
  induction fields generalizing fm ok with
  | nil =>
    refine ⟨rfl, by simp, fun _ => rfl, fun _ _ => rfl, by simp⟩
  | cons f fs ih =>
    simp only [List.foldl_cons]
    cases hchk : submitFieldCheck f with
    | none =>
      have hstep : submitStep (fm, ok) f = (fm, ok) := by
        simp [submitStep, hchk]
      rw [hstep]
      have ih2 := ih fm ok
        (fun g hg => hids g (List.mem_cons_of_mem _ hg))
        (fun g hg => hinv g (List.mem_cons_of_mem _ hg))
      refine ⟨ih2.1, ?_, ?_, ?_, ?_⟩
      · rw [ih2.2.1]
        constructor
        · rintro ⟨hok2, hall⟩
          refine ⟨hok2, ?_⟩
          intro g hg
          rcases List.mem_cons.mp hg with rfl | hg2
          · exact hchk
          · exact hall g hg2
        · rintro ⟨hok2, hall⟩
          exact ⟨hok2, fun g hg => hall g (List.mem_cons_of_mem _ hg)⟩
      · intro hall
        exact ih2.2.2.1 (fun g hg => hall g (List.mem_cons_of_mem _ hg))
      · intro fid2 hne
        exact ih2.2.2.2.1 fid2 (fun g hg => hne g (List.mem_cons_of_mem _ hg))
      · intro hnd g hg msg hmsg
        rcases List.mem_cons.mp hg with rfl | hg2
        · rw [hchk] at hmsg
          exact absurd hmsg (by simp)
        · exact ih2.2.2.2.2 (by simpa using hnd.of_cons) g hg2 msg hmsg
    | some msg0 =>
      have hstep : submitStep (fm, ok) f = (showError f.id msg0 fm, false) := by
        simp [submitStep, hchk]
      rw [hstep]
      have hfm : f.id ∈ fieldIds fm := hids f (List.mem_cons_self _ _)
      have hff : (annotationsFor f.id fm).length ≤ 1 :=
        hinv f (List.mem_cons_self _ _)
      have hself := annotationsFor_showError_self f.id msg0 fm hfm hff
      have hids2 : ∀ g ∈ fs, g.id ∈ fieldIds (showError f.id msg0 fm) := by
        intro g hg
        rw [fieldIds_showError]
        exact hids g (List.mem_cons_of_mem _ hg)
      have hinv2 : ∀ g ∈ fs,
          (annotationsFor g.id (showError f.id msg0 fm)).length ≤ 1 := by
        intro g hg
        by_cases hgid : g.id = f.id
        · rw [hgid, hself]
          simp
        · rw [annotationsFor_showError_other f.id g.id msg0 fm
            (fun he => hgid he.symm)]
          exact hinv g (List.mem_cons_of_mem _ hg)
      have ih2 := ih (showError f.id msg0 fm) false hids2 hinv2
      refine ⟨?_, ?_, ?_, ?_, ?_⟩
      · rw [ih2.1, fieldIds_showError]
      · rw [ih2.2.1]
        constructor
        · rintro ⟨hfalse, _⟩
          exact absurd hfalse (by simp)
        · rintro ⟨_, hall⟩
          have := hall f (List.mem_cons_self _ _)
          rw [hchk] at this
          exact absurd this (by simp)
      · intro hall
        have := hall f (List.mem_cons_self _ _)
        rw [hchk] at this
        exact absurd this (by simp)
      · intro fid2 hne
        rw [ih2.2.2.2.1 fid2 (fun g hg => hne g (List.mem_cons_of_mem _ hg))]
        exact annotationsFor_showError_other f.id fid2 msg0 fm
          (hne f (List.mem_cons_self _ _))
      · intro hnd g hg msg hmsg
        rcases List.mem_cons.mp hg with rfl | hg2
        · rw [hchk] at hmsg
          have hmm : msg = msg0 := by
            injection hmsg.symm
          subst hmm
          have hne : ∀ g2 ∈ fs, g2.id ≠ g.id := by
            intro g2 hg2 he
            have : g.id ∈ fs.map FieldData.id := by
              rw [← he]
              exact List.mem_map_of_mem _ hg2
            simp only [List.map_cons, List.nodup_cons] at hnd
            exact hnd.1 this
          rw [ih2.2.2.2.1 g.id hne]
          exact hself
        · exact ih2.2.2.2.2 (by simpa using hnd.of_cons) g hg2 msg hmsg

/-- C1 counterexample: `_handleSubmit` iterates only
`form.querySelectorAll('[required]')` — a non-required email field with
an invalid value is never validated: submission proceeds (no
`preventDefault`), `recordSubmission` runs, and no error annotation is
shown, although the claim requires that field to fail and block
submission. -/
theorem handleSubmit_skips_nonrequired :
    (handleSubmit [Node.field ⟨0, false, FieldType.email, "bad", false⟩]
      ⟨true, true, []⟩ 0).prevented = false ∧
    (handleSubmit [Node.field ⟨0, false, FieldType.email, "bad", false⟩]
      ⟨true, true, []⟩ 0).recorded = true ∧
    (handleSubmit [Node.field ⟨0, false, FieldType.email, "bad", false⟩]
      ⟨true, true, []⟩ 0).form =
      [Node.field ⟨0, false, FieldType.email, "bad", false⟩] ∧
    isValidEmail (some "bad") = false := by
  refine ⟨rfl, rfl, rfl, by decide⟩

/-- C1 amended: when `canSubmit` is true, `_handleSubmit` validates
exactly the required fields (checking required-ness before the email or
phone pattern): if all of them pass, nothing is prevented,
`recordSubmission` is called and the cleared form is left unchanged; if
any fails, native submission is prevented, nothing is recorded, each
failing required field carries exactly the annotation with its
type-appropriate message (given distinct field ids), and focus moves to
the element immediately preceding the first error annotation in
document order. -/
theorem handleSubmit_valid (form : List Node) (s : Storage) (now : Int)
    (hok : canSubmit s now = true) :
    ((∀ f ∈ requiredFields (clearMessages form), submitFieldCheck f = none) →
      handleSubmit form s now =
        { form := clearMessages form
          storage := recordSubmission s now
          prevented := false
          recorded := true
          focused := none }) ∧
    ((∃ f ∈ requiredFields (clearMessages form), submitFieldCheck f ≠ none) →
      (handleSubmit form s now).prevented = true ∧
      (handleSubmit form s now).recorded = false ∧
      (handleSubmit form s now).storage = s ∧
      (handleSubmit form s now).focused =
        prevOfFirstError (handleSubmit form s now).form ∧
      ((fieldIds (clearMessages form)).Nodup →
        ∀ f ∈ requiredFields (clearMessages form), ∀ msg,
          submitFieldCheck f = some msg →
          annotationsFor f.id (handleSubmit form s now).form =
            [mkFieldErr msg])) := by
  have hmsgs := clearMessages_spec form
  have hids := requiredFields_id_mem (clearMessages form)
  have hinv : ∀ f ∈ requiredFields (clearMessages form),
      (annotationsFor f.id (clearMessages form)).length ≤ 1 := by
    intro f hf
    rw [annotationsFor_no_err f.id (clearMessages form)
      (fun n hn => (hmsgs n hn).1)]
    simp
  have hfold := submitFold_spec (requiredFields (clearMessages form))
    (clearMessages form) true hids hinv
  have hHS : handleSubmit form s now =
      (if ((requiredFields (clearMessages form)).foldl submitStep
          (clearMessages form, true)).2 = true then
        { form := ((requiredFields (clearMessages form)).foldl submitStep
            (clearMessages form, true)).1
          storage := recordSubmission s now
          prevented := false
          recorded := true
          focused := none }
      else
        { form := ((requiredFields (clearMessages form)).foldl submitStep
            (clearMessages form, true)).1
          storage := s
          prevented := true
          recorded := false
          focused := prevOfFirstError
            ((requiredFields (clearMessages form)).foldl submitStep
              (clearMessages form, true)).1 }) := by
    simp [handleSubmit, hok]
  constructor
  · intro hall
    have h2 : ((requiredFields (clearMessages form)).foldl submitStep
        (clearMessages form, true)).2 = true := hfold.2.1.mpr ⟨rfl, hall⟩
    have h1 := hfold.2.2.1 hall
    rw [hHS, if_pos h2, h1]
  · rintro ⟨f0, hf0, hne0⟩
    have h2 : ((requiredFields (clearMessages form)).foldl submitStep
        (clearMessages form, true)).2 = false := by
      cases hsnd : ((requiredFields (clearMessages form)).foldl submitStep
          (clearMessages form, true)).2 with
      | false => rfl
      | true => exact absurd ((hfold.2.1.mp hsnd).2 f0 hf0) hne0
    rw [hHS, if_neg (by simp [h2])]
    refine ⟨rfl, rfl, rfl, rfl, ?_⟩
    intro hnodup f hf msg hmsg
    have hnd2 : ((requiredFields (clearMessages form)).map
        FieldData.id).Nodup :=
      List.Nodup.sublist (requiredFields_map_sublist (clearMessages form))
        hnodup
    exact hfold.2.2.2.2 hnd2 f hf msg hmsg

/-- C1 witness: a passing required field records the submission; an
empty required email field blocks submission with exactly the required
message annotated on it. -/
theorem handleSubmit_valid_witness :
    (handleSubmit [Node.field ⟨0, true, FieldType.other, "x", false⟩]
      ⟨true, true, []⟩ 0).recorded = true ∧
    (handleSubmit [Node.field ⟨0, true, FieldType.email, "", false⟩]
      ⟨true, true, []⟩ 0).prevented = true ∧
    annotationsFor 0 (handleSubmit
      [Node.field ⟨0, true, FieldType.email, "", false⟩]
      ⟨true, true, []⟩ 0).form = [mkFieldErr requiredMsg] := by
  refine ⟨?_, ?_, ?_⟩
  · have h := (handleSubmit_valid
      [Node.field ⟨0, true, FieldType.other, "x", false⟩]
      ⟨true, true, []⟩ 0 (by decide)).1 (by decide)
    rw [h]
  · exact ((handleSubmit_valid
      [Node.field ⟨0, true, FieldType.email, "", false⟩]
      ⟨true, true, []⟩ 0 (by decide)).2
      ⟨⟨0, true, FieldType.email, "", false⟩, by decide, by decide⟩).1
  · have h := ((handleSubmit_valid
      [Node.field ⟨0, true, FieldType.email, "", false⟩]
      ⟨true, true, []⟩ 0 (by decide)).2
      ⟨⟨0, true, FieldType.email, "", false⟩, by decide, by decide⟩).2.2.2.2
    exact h (by decide) ⟨0, true, FieldType.email, "", false⟩ (by decide)
      requiredMsg (by decide)

end SSS
